import Mathlib

/-!
Verification development for the annotation-fidelity repository.

The repository ships four Python files under `src/server/python/`
(`extract_screenshots.py`, `pdf_to_images.py`, `ocr_extract.py`,
`pdf_pipeline.py`); those are embedded here directly from the source.
The three core subsystems described by the specification (evidence
retrieval and re-ranking, quote verification, claim auditing) are not
present in the source tree, so their operations are modelled from the
specification text; every such definition carries a doc comment starting
with `Modelled from the spec:`.

Machine integers do not occur: page numbers are `Int`/`Nat`, OCR
confidences are modelled as rationals.
-/

/-! ## Claim audit severity (spec §4.3) -/

/-- Modelled from the spec: the three issue flags a claim audit can carry
(§4.3); the auditor itself is not in `src/`. -/
inductive AuditIssue where
  | missing_citation_marker
  | weak_or_missing_evidence
  | potential_contradiction
deriving DecidableEq, Repr

/-- Modelled from the spec: claim severity levels (§3, §4.3). -/
inductive Severity where
  | ok
  | medium
  | high
deriving DecidableEq, Repr

/-- Modelled from the spec: draft-level status values (§4.3). -/
inductive DraftStatus where
  | pass
  | warn
  | fail
deriving DecidableEq, Repr

/-- Modelled from the spec: "Severity: `ok` if no issues; `high` if
`weak_or_missing_evidence` is present (regardless of other issues); else
`medium`." (§4.3). The auditor code is not in `src/`. -/
def severityOf (issues : List AuditIssue) : Severity :=
  if issues.isEmpty then .ok
  else if AuditIssue.weak_or_missing_evidence ∈ issues then .high
  else .medium

/-- Modelled from the spec: "Draft-level status: `fail` if any claim is
`high`, else `warn` if any `medium`, else `pass`." (§4.3). -/
def draftStatusOf (sevs : List Severity) : DraftStatus :=
  if Severity.high ∈ sevs then .fail
  else if Severity.medium ∈ sevs then .warn
  else .pass

/-! ## PDF page screenshots (`extract_screenshots.py`) -/

/-- File name used by `extract_screenshots` for a page: `page_{p}.png`
with the 0-indexed page number, an `Int` as parsed from the CLI. -/
def pageNameI (p : Int) : String := "page_" ++ toString p ++ ".png"

/-- Result shape of `extract_screenshots`: list of written screenshot
paths plus the PDF's total page count. -/
structure ScreenshotResult where
  screenshots : List String
  total_pages : Nat
deriving DecidableEq, Repr

/-- The `valid_pages` computation of `extract_screenshots.py` lines 37-40:
keep requested pages `p` with `0 <= p < total_pages`; if none survive,
fall back to `[0]`. -/
def screenshotValidPages (totalPages : Nat) (pages : List Int) : List Int :=
  if (pages.filter (fun p => decide (0 ≤ p ∧ p < (totalPages : Int)))).isEmpty then [0]
  else pages.filter (fun p => decide (0 ≤ p ∧ p < (totalPages : Int)))

/-- Embedding of `extract_screenshots` (`extract_screenshots.py` lines
13-60).  `convert_from_path` with `first_page = last_page = p + 1` returns
a non-empty image list exactly when `1 ≤ p + 1 ≤ total_pages`; the
`if images:` guard at line 51 is embedded as that range test, and a page
that passes it is saved as `page_{p}.png` (0-indexed name, line 52). -/
def extract_screenshots (totalPages : Nat) (pages : List Int) : ScreenshotResult :=
  { screenshots := (screenshotValidPages totalPages pages).filterMap (fun p =>
      if 0 < p + 1 ∧ p + 1 ≤ (totalPages : Int) then some (pageNameI p) else none),
    total_pages := totalPages }

/-! ## PDF rasterization (`pdf_to_images.py`) -/

/-- File name used by `pdf_to_images`: `page_{n}.png` with the 1-indexed
page number (`pdf_to_images.py` line 45). -/
def pageNameN (n : Nat) : String := "page_" ++ toString n ++ ".png"

/-- Result shape printed by `pdf_to_images.py` line 52. -/
structure PdfToImagesResult where
  images : List String
  total_pages : Nat
deriving DecidableEq, Repr

/-- Embedding of the conversion loop of `pdf_to_images.py` lines 36-52:
every page `0 ≤ i < total_pages` is rendered and saved as
`page_{i+1}.png`, appended in page order. -/
def pdf_to_images (totalPages : Nat) : PdfToImagesResult :=
  { images := (List.range totalPages).map (fun i => pageNameN (i + 1)),
    total_pages := totalPages }

/-! ## OCR extraction (`ocr_extract.py`, `run_ppocr`) -/

/-- `round(x, 4)` of `ocr_extract.py` line 73, on rationals: round to the
nearest multiple of `1/10000`. -/
def round4 (q : ℚ) : ℚ := (round (q * 10000) : ℤ) / 10000

/-- One entry of the `pages` list returned by `run_ppocr`
(`ocr_extract.py` lines 70-74). -/
structure OcrPage where
  page : Nat
  text : String
  confidence : ℚ
deriving DecidableEq, Repr

/-- The dict returned by `run_ppocr` (`ocr_extract.py` lines 78-82). -/
structure OcrResult where
  pages : List OcrPage
  full_text : String
  model : String
deriving DecidableEq, Repr

/-- `page_text` of `ocr_extract.py` line 63: recognized line texts joined
with newlines.  A page's OCR output is modelled as the list of
(line text, line confidence) pairs produced by the recognizer. -/
def pageTextOf (lines : List (String × ℚ)) : String :=
  String.intercalate "\n" (lines.map Prod.fst)

/-- `avg_confidence` then `round(..., 4)` of `ocr_extract.py` lines 64-73:
mean of the per-line confidences, guarded to `0.0` when there are none. -/
def pageConfidenceOf (lines : List (String × ℚ)) : ℚ :=
  round4 (if (lines.map Prod.snd).isEmpty then 0
          else (lines.map Prod.snd).sum / ((lines.map Prod.snd).length : ℚ))

/-- The page loop of `run_ppocr` (`ocr_extract.py` lines 48-75):
`for i, img in enumerate(images)` builds one `OcrPage` per input page, in
order, numbered from 0. -/
def ocrPagesFrom (i : Nat) : List (List (String × ℚ)) → List OcrPage
  | [] => []
  | lines :: rest =>
    { page := i, text := pageTextOf lines, confidence := pageConfidenceOf lines }
      :: ocrPagesFrom (i + 1) rest

/-- Embedding of `run_ppocr` (`ocr_extract.py` lines 30-82), with the PDF
already rasterized and recognized: input is the per-page list of
(line text, confidence) pairs. -/
def run_ppocr (pageInputs : List (List (String × ℚ))) : OcrResult :=
  { pages := ocrPagesFrom 0 pageInputs,
    full_text := String.intercalate "\n\n" (pageInputs.map pageTextOf),
    model := "ppocr" }

/-! ## Helper lemmas -/

theorem ocrPagesFrom_get? (start i : Nat) (inputs : List (List (String × ℚ)))
    (lines : List (String × ℚ)) (h : inputs[i]? = some lines) :
    (ocrPagesFrom start inputs)[i]? = some
      { page := start + i, text := pageTextOf lines,
        confidence := pageConfidenceOf lines } := by
  induction inputs generalizing start i with
  | nil => simp at h
  | cons x xs ih =>
    cases i with
    | zero =>
      simp only [List.getElem?_cons_zero, Option.some.injEq] at h
      subst h
      simp [ocrPagesFrom]
    | succ n =>
      simp only [List.getElem?_cons_succ] at h
      have := ih (start + 1) n h
      simpa [ocrPagesFrom, Nat.add_assoc, Nat.add_comm 1 n] using this

theorem filterMap_eq_map_of_forall {α β : Type} (l : List α) (f : α → Option β)
    (g : α → β) (h : ∀ a ∈ l, f a = some (g a)) : l.filterMap f = l.map g := by
  induction l with
  | nil => rfl
  | cons x xs ih =>
    simp only [List.filterMap_cons, List.map_cons, h x (by simp)]
    rw [ih (fun a ha => h a (by simp [ha]))]

theorem screenshotValidPages_mem (totalPages : Nat) (pages : List Int)
    (h : 1 ≤ totalPages) :
    ∀ p ∈ screenshotValidPages totalPages pages, 0 ≤ p ∧ p < (totalPages : Int) := by
  intro p hp
  unfold screenshotValidPages at hp
  by_cases he : (pages.filter (fun p => decide (0 ≤ p ∧ p < (totalPages : Int)))).isEmpty
  · simp only [he, if_pos] at hp
    simp only [List.mem_singleton] at hp
    subst hp
    exact ⟨le_refl 0, by exact_mod_cast h⟩
  · simp only [he, if_neg, Bool.false_eq_true, not_false_iff] at hp
    have := List.of_mem_filter hp
    simpa using this

/-! ## Theorems: C6, C8, C10 -/

/-- C6: for every audited claim, severity is `ok` exactly when its issue
set is empty, `high` whenever `weak_or_missing_evidence` is among its
issues regardless of other issues, and `medium` otherwise; and the
draft-level status is `fail` if any claim is `high`, else `warn` if any
claim is `medium`, else `pass`. -/
theorem audit_severity_status_spec :
    (∀ issues : List AuditIssue,
      (severityOf issues = .ok ↔ issues = []) ∧
      (AuditIssue.weak_or_missing_evidence ∈ issues → severityOf issues = .high) ∧
      (issues ≠ [] → AuditIssue.weak_or_missing_evidence ∉ issues →
        severityOf issues = .medium)) ∧
    (∀ sevs : List Severity,
      (draftStatusOf sevs = .fail ↔ .high ∈ sevs) ∧
      (draftStatusOf sevs = .warn ↔ (.high ∉ sevs ∧ .medium ∈ sevs)) ∧
      (draftStatusOf sevs = .pass ↔ (.high ∉ sevs ∧ .medium ∉ sevs))) := by
  constructor
  · intro issues
    refine ⟨?_, ?_, ?_⟩
    · unfold severityOf
      rcases issues with _ | ⟨a, l⟩
      · simp
      · simp only [List.isEmpty_cons, Bool.false_eq_true, if_false]
        constructor
        · intro hcontra
          by_cases hc : AuditIssue.weak_or_missing_evidence ∈ a :: l <;>
            simp [hc] at hcontra
        · intro hcontra
          cases hcontra
    · intro hmem
      unfold severityOf
      have hne : ¬ issues.isEmpty = true := by
        cases issues with
        | nil => cases hmem
        | cons a l => simp
      simp [hne, hmem]
    · intro hne hnmem
      unfold severityOf
      have h1 : ¬ issues.isEmpty = true := by simpa using hne
      simp [h1, hnmem]
  · intro sevs
    unfold draftStatusOf
    by_cases hh : Severity.high ∈ sevs
    · simp [hh]
    · by_cases hm : Severity.medium ∈ sevs <;> simp [hh, hm]

/-- C6 witness: concrete evaluation of the severity and status rules. -/
theorem audit_severity_status_spec_witness :
    severityOf [.missing_citation_marker, .weak_or_missing_evidence] = .high ∧
    draftStatusOf [.ok, .medium] = .warn :=
  ⟨(audit_severity_status_spec.1
      [.missing_citation_marker, .weak_or_missing_evidence]).2.1 (by decide),
   ((audit_severity_status_spec.2 [.ok, .medium]).2.1).mpr (by decide)⟩

/-- C8: `extract_screenshots` converts only requested pages `p` with
`0 ≤ p < total_pages`; if no requested page is in range it falls back to
page 0; each returned path is named `page_{p}.png` with the 0-indexed
page number, and the paths appear in the order of the valid requested
pages. -/
theorem extract_screenshots_spec (totalPages : Nat) (pages : List Int)
    (h : 1 ≤ totalPages) :
    (extract_screenshots totalPages pages).screenshots
        = (screenshotValidPages totalPages pages).map pageNameI ∧
    (∀ p ∈ screenshotValidPages totalPages pages, 0 ≤ p ∧ p < (totalPages : Int)) ∧
    (pages.filter (fun p => decide (0 ≤ p ∧ p < (totalPages : Int))) = [] →
      screenshotValidPages totalPages pages = [0]) ∧
    (extract_screenshots totalPages pages).total_pages = totalPages := by
  refine ⟨?_, screenshotValidPages_mem totalPages pages h, ?_, rfl⟩
  · unfold extract_screenshots
    apply filterMap_eq_map_of_forall
    intro p hp
    have hrange := screenshotValidPages_mem totalPages pages h p hp
    rw [if_pos]
    exact ⟨by omega, by omega⟩
  · intro hnil
    unfold screenshotValidPages
    rw [hnil]
    simp

/-- C8 witness: pages 5 and -2 are out of range for a 3-page PDF; pages 1
and 0 survive in request order and are named with their 0-indexed
numbers. -/
theorem extract_screenshots_spec_witness :
    (extract_screenshots 3 [5, 1, -2, 0]).screenshots
        = (screenshotValidPages 3 [5, 1, -2, 0]).map pageNameI ∧
    (screenshotValidPages 3 [5, 1, -2, 0]).map pageNameI
        = ["page_1.png", "page_0.png"] :=
  ⟨(extract_screenshots_spec 3 [5, 1, -2, 0] (by decide)).1, by decide⟩

/-- C10: `pdf_to_images` on an `N`-page PDF produces exactly `N` image
paths, the `i`-th (0-indexed) being `page_{i+1}.png` (1-indexed naming),
with `total_pages` equal to the length of the images list — whereas
`extract_screenshots` names the same physical page `page_{i}.png` with
the 0-indexed number. -/
theorem pdf_to_images_spec (N : Nat) :
    (pdf_to_images N).images.length = N ∧
    (pdf_to_images N).total_pages = (pdf_to_images N).images.length ∧
    (∀ i, i < N →
      (pdf_to_images N).images[i]? = some (pageNameN (i + 1)) ∧
      (extract_screenshots N [(i : Int)]).screenshots = [pageNameI (i : Int)] ∧
      pageNameI (i : Int) = pageNameN i) := by
  refine ⟨by simp [pdf_to_images], by simp [pdf_to_images], ?_⟩
  intro i hi
  refine ⟨?_, ?_, rfl⟩
  · show ((List.range N).map fun j => pageNameN (j + 1))[i]? = some (pageNameN (i + 1))
    rw [List.getElem?_map, List.getElem?_range hi]
    rfl
  · have hlt : (i : Int) < (N : Int) := by exact_mod_cast hi
    have hfil : List.filter (fun p => decide (0 ≤ p ∧ p < (N : Int))) [(i : Int)]
        = [(i : Int)] := by
      simp [List.filter_cons, Int.ofNat_nonneg i, hlt]
    have hv : screenshotValidPages N [(i : Int)] = [(i : Int)] := by
      unfold screenshotValidPages
      rw [hfil]
      simp
    unfold extract_screenshots
    rw [hv]
    simp only [List.filterMap_cons, List.filterMap_nil]
    rw [if_pos (⟨by omega, by omega⟩ : 0 < (i : Int) + 1 ∧ (i : Int) + 1 ≤ (N : Int))]

/-- C10 witness: a 2-page PDF; physical page 1 (0-indexed) is named
`page_2.png` by `pdf_to_images` and `page_1.png` by
`extract_screenshots`. -/
theorem pdf_to_images_spec_witness :
    ((pdf_to_images 2).images[1]? = some (pageNameN 2) ∧
      (extract_screenshots 2 [(1 : Int)]).screenshots = [pageNameI (1 : Int)] ∧
      pageNameI (1 : Int) = pageNameN 1) ∧
    (pdf_to_images 2).images = ["page_1.png", "page_2.png"] :=
  ⟨(pdf_to_images_spec 2).2.2 1 (by decide), by decide⟩

/-- C9: for every page processed by `run_ppocr`, the reported per-page
confidence equals the arithmetic mean of that page's per-line recognition
confidences rounded to 4 decimal places, and equals 0.0 when no lines are
recognized (the division is guarded); `full_text` is the page texts
joined with a blank line in page order. -/
theorem run_ppocr_spec (inputs : List (List (String × ℚ))) (i : Nat)
    (lines : List (String × ℚ)) (h : inputs[i]? = some lines) :
    (run_ppocr inputs).pages[i]? = some
      { page := i, text := pageTextOf lines, confidence := pageConfidenceOf lines } ∧
    (lines ≠ [] → pageConfidenceOf lines
      = round4 ((lines.map Prod.snd).sum / ((lines.map Prod.snd).length : ℚ))) ∧
    (lines = [] → pageConfidenceOf lines = 0) ∧
    (run_ppocr inputs).full_text
      = String.intercalate "\n\n" (inputs.map pageTextOf) := by
  refine ⟨?_, ?_, ?_, rfl⟩
  · have := ocrPagesFrom_get? 0 i inputs lines h
    simpa [run_ppocr] using this
  · intro hne
    unfold pageConfidenceOf
    rw [if_neg (by simpa using hne)]
  · intro hnil
    subst hnil
    unfold pageConfidenceOf round4
    norm_num

/-- C9 witness: a two-line page with confidences 1/2 and 1/4 reports the
rounded mean 0.375, and the guard yields 0 on a concrete empty page. -/
theorem run_ppocr_spec_witness :
    (run_ppocr [[("ab", (1 : ℚ)/2), ("cd", (1 : ℚ)/4)], []]).pages[0]? = some
      { page := 0, text := pageTextOf [("ab", (1 : ℚ)/2), ("cd", (1 : ℚ)/4)],
        confidence := pageConfidenceOf [("ab", (1 : ℚ)/2), ("cd", (1 : ℚ)/4)] } ∧
    pageConfidenceOf [("ab", (1 : ℚ)/2), ("cd", (1 : ℚ)/4)] = 375/1000 ∧
    pageConfidenceOf ([] : List (String × ℚ)) = 0 :=
  ⟨(run_ppocr_spec [[("ab", (1 : ℚ)/2), ("cd", (1 : ℚ)/4)], []] 0
      [("ab", (1 : ℚ)/2), ("cd", (1 : ℚ)/4)] rfl).1,
   by norm_num [pageConfidenceOf, round4],
   (run_ppocr_spec [[("ab", (1 : ℚ)/2), ("cd", (1 : ℚ)/4)], []] 1
      [] rfl).2.2.1 rfl⟩

/-! ## Text normalizer / tokenizer (spec §2) and query generation (spec §4.1) -/

/-- Maximal runs of characters satisfying `p`, accumulator-based. -/
def runsAux (p : Char → Bool) : List Char → List Char → List (List Char)
  | [], cur => if cur.isEmpty then [] else [cur.reverse]
  | c :: rest, cur =>
    if p c then runsAux p rest (c :: cur)
    else if cur.isEmpty then runsAux p rest []
    else cur.reverse :: runsAux p rest []

/-- Modelled from the spec: the tokenizer "lowercases, strips
non-alphanumerics, discards tokens shorter than 3 characters" (§2); the
tokenizer code is not in `src/`. -/
def significantTokens (s : String) : List String :=
  ((runsAux (fun c => c.isAlphanum) (s.data.map Char.toLower) []).filter
    (fun t => 3 ≤ t.length)).map (fun t => String.mk t)

/-- Whitespace collapse on character lists: non-whitespace runs joined by
single spaces. -/
def collapseWsL (l : List Char) : List Char :=
  List.intercalate [' '] (runsAux (fun c => !c.isWhitespace) l [])

/-- Whitespace normalization of a string. -/
def collapseWs (s : String) : String := String.mk (collapseWsL s.data)

/-- First-seen-order deduplication, skipping entries already in `seen`. -/
def dedupFirstAux (seen : List String) : List String → List String
  | [] => []
  | x :: xs =>
    if x ∈ seen then dedupFirstAux seen xs
    else x :: dedupFirstAux (x :: seen) xs

/-- First-seen-order deduplication of a list of strings. -/
def dedupFirst (l : List String) : List String := dedupFirstAux [] l

/-- Modelled from the spec: the three fixed probe phrases of §4.1. -/
def probePhrases : List String :=
  ["primary source evidence", "counterargument evidence", "methodology limitations"]

/-- Modelled from the spec: query generation when no explicit queries are
supplied (§4.1) — whitespace-normalized question first, first-6/last-6
significant-token variants when the question has at least 4 significant
tokens, the question concatenated with each probe phrase, first-seen
deduplication, cap at 6.  The retrieval engine code is not in `src/`. -/
def buildQueries (question : String) : List String :=
  (dedupFirst
    (collapseWs question ::
      ((if 4 ≤ (significantTokens question).length then
          [String.intercalate " " ((significantTokens question).take 6),
           String.intercalate " "
             ((significantTokens question).drop ((significantTokens question).length - 6))]
        else []) ++
        probePhrases.map (fun p => collapseWs question ++ " " ++ p)))).take 6

/-! ### dedupFirst lemmas -/

theorem mem_dedupFirstAux (l : List String) :
    ∀ seen v, v ∈ dedupFirstAux seen l → v ∈ l ∧ v ∉ seen := by
  induction l with
  | nil => intro seen v hv; cases hv
  | cons x xs ih =>
    intro seen v hv
    rw [dedupFirstAux] at hv
    by_cases hx : x ∈ seen
    · rw [if_pos hx] at hv
      have := ih seen v hv
      exact ⟨List.mem_cons_of_mem x this.1, this.2⟩
    · rw [if_neg hx] at hv
      rcases List.mem_cons.mp hv with h | h
      · subst h; exact ⟨List.mem_cons_self _ _, hx⟩
      · have := ih (x :: seen) v h
        exact ⟨List.mem_cons_of_mem x this.1,
          fun hc => this.2 (List.mem_cons_of_mem x hc)⟩

theorem dedupFirstAux_mem (l : List String) :
    ∀ seen v, v ∈ l → v ∉ seen → v ∈ dedupFirstAux seen l := by
  induction l with
  | nil => intro seen v hv _; cases hv
  | cons x xs ih =>
    intro seen v hv hns
    rw [dedupFirstAux]
    by_cases hx : x ∈ seen
    · rw [if_pos hx]
      rcases List.mem_cons.mp hv with h | h
      · subst h; exact absurd hx hns
      · exact ih seen v h hns
    · rw [if_neg hx]
      by_cases hvx : v = x
      · subst hvx; exact List.mem_cons_self _ _
      · rcases List.mem_cons.mp hv with h | h
        · exact absurd h hvx
        · refine List.mem_cons_of_mem x (ih (x :: seen) v h ?_)
          intro hc
          rcases List.mem_cons.mp hc with h' | h'
          · exact hvx h'
          · exact hns h'

theorem dedupFirstAux_nodup (l : List String) :
    ∀ seen, (dedupFirstAux seen l).Nodup := by
  induction l with
  | nil => intro seen; exact List.nodup_nil
  | cons x xs ih =>
    intro seen
    rw [dedupFirstAux]
    by_cases hx : x ∈ seen
    · rw [if_pos hx]; exact ih seen
    · rw [if_neg hx]
      refine List.nodup_cons.mpr ⟨?_, ih (x :: seen)⟩
      intro hmem
      exact (mem_dedupFirstAux xs (x :: seen) x hmem).2 (List.mem_cons_self _ _)

theorem dedupFirstAux_length_le (l : List String) :
    ∀ seen, (dedupFirstAux seen l).length ≤ l.length := by
  induction l with
  | nil => intro seen; exact le_refl _
  | cons x xs ih =>
    intro seen
    rw [dedupFirstAux]
    by_cases hx : x ∈ seen
    · rw [if_pos hx]
      exact le_trans (ih seen) (Nat.le_succ _)
    · rw [if_neg hx]
      simpa using ih (x :: seen)

theorem dedupFirst_subset (l : List String) : ∀ v ∈ dedupFirst l, v ∈ l :=
  fun v hv => (mem_dedupFirstAux l [] v hv).1

theorem mem_dedupFirst (l : List String) : ∀ v ∈ l, v ∈ dedupFirst l :=
  fun v hv => dedupFirstAux_mem l [] v hv (by simp)

theorem dedupFirst_nodup (l : List String) : (dedupFirst l).Nodup :=
  dedupFirstAux_nodup l []

theorem dedupFirst_length_le (l : List String) : (dedupFirst l).length ≤ l.length :=
  dedupFirstAux_length_le l []

/-- C5: query generation is a deterministic function of the question
(`buildQueries` takes only the question); the list starts with the
whitespace-normalized question, adds first-6/last-6 token variants only
when there are at least 4 significant tokens, appends the three probe
concatenations, is deduplicated first-seen, and has at most 6 entries. -/
theorem query_generation_spec (q : String) :
    (buildQueries q).length ≤ 6 ∧
    (buildQueries q).head? = some (collapseWs q) ∧
    (buildQueries q).Nodup ∧
    (∀ p ∈ probePhrases, collapseWs q ++ " " ++ p ∈ buildQueries q) ∧
    (∀ v ∈ buildQueries q,
      v = collapseWs q ∨
      v = String.intercalate " " ((significantTokens q).take 6) ∨
      v = String.intercalate " "
            ((significantTokens q).drop ((significantTokens q).length - 6)) ∨
      ∃ p ∈ probePhrases, v = collapseWs q ++ " " ++ p) ∧
    ((significantTokens q).length < 4 →
      ∀ v ∈ buildQueries q,
        v = collapseWs q ∨ ∃ p ∈ probePhrases, v = collapseWs q ++ " " ++ p) := by
  have hlen : (collapseWs q ::
      ((if 4 ≤ (significantTokens q).length then
          [String.intercalate " " ((significantTokens q).take 6),
           String.intercalate " "
             ((significantTokens q).drop ((significantTokens q).length - 6))]
        else []) ++
        probePhrases.map (fun p => collapseWs q ++ " " ++ p))).length ≤ 6 := by
    by_cases h4 : 4 ≤ (significantTokens q).length <;> simp [h4, probePhrases]
  have htake : buildQueries q = dedupFirst
      (collapseWs q ::
        ((if 4 ≤ (significantTokens q).length then
            [String.intercalate " " ((significantTokens q).take 6),
             String.intercalate " "
               ((significantTokens q).drop ((significantTokens q).length - 6))]
          else []) ++
          probePhrases.map (fun p => collapseWs q ++ " " ++ p))) := by
    unfold buildQueries
    exact List.take_of_length_le (le_trans (dedupFirst_length_le _) hlen)
  refine ⟨?_, ?_, ?_, ?_, ?_, ?_⟩
  · exact le_trans (le_of_eq (congrArg List.length htake.symm ▸ rfl))
      (le_trans (dedupFirst_length_le _) hlen)
  · rw [htake]
    simp [dedupFirst, dedupFirstAux]
  · rw [htake]; exact dedupFirst_nodup _
  · intro p hp
    rw [htake]
    exact mem_dedupFirst _ _ (by
      refine List.mem_cons_of_mem _ (List.mem_append_right _ ?_)
      exact List.mem_map.mpr ⟨p, hp, rfl⟩)
  · intro v hv
    rw [htake] at hv
    have hv' := dedupFirst_subset _ v hv
    rcases List.mem_cons.mp hv' with h | h
    · exact Or.inl h
    · rcases List.mem_append.mp h with h | h
      · by_cases h4 : 4 ≤ (significantTokens q).length
        · rw [if_pos h4] at h
          rcases List.mem_cons.mp h with h | h
          · exact Or.inr (Or.inl h)
          · rcases List.mem_cons.mp h with h | h
            · exact Or.inr (Or.inr (Or.inl h))
            · cases h
        · rw [if_neg h4] at h; cases h
      · rcases List.mem_map.mp h with ⟨p, hp, hpe⟩
        exact Or.inr (Or.inr (Or.inr ⟨p, hp, hpe.symm⟩))
  · intro hlt v hv
    rw [htake] at hv
    have hv' := dedupFirst_subset _ v hv
    rw [if_neg (by omega)] at hv'
    rcases List.mem_cons.mp hv' with h | h
    · exact Or.inl h
    · rcases List.mem_map.mp (by simpa using h) with ⟨p, hp, hpe⟩
      exact Or.inr ⟨p, hp, hpe.symm⟩

/-- C5 witness: a question with 3 significant tokens gets no token
variants; the concrete query list is the normalized question followed by
the three probe concatenations, deduplicated, 4 ≤ 6 entries. -/
theorem query_generation_spec_witness :
    ("primary source evidence" ∈ probePhrases ∧
      collapseWs "ww1 origins debate" ++ " " ++ "primary source evidence"
        ∈ buildQueries "ww1 origins debate") ∧
    (buildQueries "ww1 origins debate").head? = some (collapseWs "ww1 origins debate") ∧
    buildQueries "ww1 origins debate" =
      ["ww1 origins debate",
       "ww1 origins debate primary source evidence",
       "ww1 origins debate counterargument evidence",
       "ww1 origins debate methodology limitations"] :=
  ⟨⟨by decide,
    (query_generation_spec "ww1 origins debate").2.2.2.1
      "primary source evidence" (by decide)⟩,
   (query_generation_spec "ww1 origins debate").2.1,
   by decide⟩

/-! ## Evidence pool deduplication (spec §3, §4.1) -/

/-- Python-style trim: drop leading and trailing whitespace. -/
def trimStr (s : String) : String :=
  String.mk (((s.data.dropWhile Char.isWhitespace).reverse.dropWhile
    Char.isWhitespace).reverse)

/-- Modelled from the spec: the fields of an incoming evidence item that
the dedup key and retention filter read (§3); the retrieval engine code
is not in `src/`. -/
structure EvidenceItemRaw where
  annotationId : Option String
  documentId : String
  startPosition : Int
  highlightedText : String
  matchedText : String
deriving DecidableEq, Repr

/-- Modelled from the spec: "highlightedText (the canonical quotable
text)" with `matchedText` as its fallback (§3). -/
def quoteTextOf (it : EvidenceItemRaw) : String :=
  if trimStr it.highlightedText ≠ "" then it.highlightedText else it.matchedText

/-- The two shapes a dedup key can take (§3). -/
inductive DedupKey where
  | byAnnotationId (a : String)
  | composite (doc : String) (startPos : Int) (text80 : String)
deriving DecidableEq, Repr

/-- Modelled from the spec: "dedup key is `annotationId` when present,
else a composite of document id + start position + first 80 characters of
text" (§3). -/
def dedupKey (it : EvidenceItemRaw) : DedupKey :=
  match it.annotationId with
  | some a => .byAnnotationId a
  | none => .composite it.documentId it.startPosition (String.mk ((quoteTextOf it).data.take 80))

/-- Boolean membership for dedup keys. -/
def keyMem (k : DedupKey) (seen : List DedupKey) : Bool :=
  seen.any (fun x => decide (x = k))

theorem keyMem_iff (k : DedupKey) (seen : List DedupKey) :
    keyMem k seen = true ↔ k ∈ seen := by
  unfold keyMem
  rw [List.any_eq_true]
  constructor
  · rintro ⟨x, hx, he⟩
    exact (of_decide_eq_true he) ▸ hx
  · intro h
    exact ⟨k, h, by simp⟩

/-- Modelled from the spec: pool construction over items in
query-then-semantic processing order — drop items whose quotable text is
empty after trimming, keep the first item seen for each dedup key, drop
later occurrences silently (§4.1). -/
def poolAux (seen : List DedupKey) : List EvidenceItemRaw → List EvidenceItemRaw
  | [] => []
  | it :: rest =>
    if trimStr (quoteTextOf it) = "" then poolAux seen rest
    else if keyMem (dedupKey it) seen then poolAux seen rest
    else it :: poolAux (dedupKey it :: seen) rest

/-- Modelled from the spec: the deduplicated evidence pool built from the
full processing-order item sequence (§4.1). -/
def buildPool (items : List EvidenceItemRaw) : List EvidenceItemRaw :=
  poolAux [] items

theorem poolAux_filter_key (items : List EvidenceItemRaw) :
    ∀ seen key,
      (poolAux seen items).filter (fun it => decide (dedupKey it = key)) =
        if key ∈ seen then []
        else ((items.filter (fun it =>
          decide (trimStr (quoteTextOf it) ≠ "" ∧ dedupKey it = key))).head?).toList := by
  induction items with
  | nil =>
    intro seen key
    by_cases hk : key ∈ seen <;> simp [poolAux, hk]
  | cons it rest ih =>
    intro seen key
    rw [poolAux]
    by_cases htext : trimStr (quoteTextOf it) = ""
    · rw [if_pos htext, ih seen key]
      by_cases hk : key ∈ seen
      · simp [hk]
      · simp [hk, List.filter_cons, htext]
    · rw [if_neg htext]
      by_cases hseen : dedupKey it ∈ seen
      · rw [if_pos ((keyMem_iff _ _).mpr hseen), ih seen key]
        by_cases hk : key ∈ seen
        · simp [hk]
        · have hne : dedupKey it ≠ key := fun he => hk (he ▸ hseen)
          simp [hk, List.filter_cons, hne]
      · have hkm : keyMem (dedupKey it) seen = false :=
          Bool.eq_false_iff.mpr (fun hc => hseen ((keyMem_iff _ _).mp hc))

        simp only [hkm, Bool.false_eq_true, if_false]
        by_cases hkey : dedupKey it = key
        · subst hkey
          rw [List.filter_cons, List.filter_cons]
          simp only [decide_eq_true rfl,
            decide_eq_true (show trimStr (quoteTextOf it) ≠ "" ∧
              dedupKey it = dedupKey it from ⟨htext, rfl⟩),
            if_true]
          rw [ih (dedupKey it :: seen) (dedupKey it),
            if_pos (List.mem_cons_self _ _), if_neg hseen]
          simp [htext]
        · rw [List.filter_cons, List.filter_cons]
          simp only [decide_eq_false hkey,
            decide_eq_false (fun (hc : trimStr (quoteTextOf it) ≠ "" ∧
              dedupKey it = key) => hkey hc.2),
            Bool.false_eq_true, if_false]
          rw [ih (dedupKey it :: seen) key]
          by_cases hk : key ∈ seen
          · rw [if_pos (List.mem_cons_of_mem _ hk), if_pos hk]
          · rw [if_neg ?_, if_neg hk]
            intro hc
            rcases List.mem_cons.mp hc with h | h
            · exact hkey h.symm
            · exact hk h

theorem poolAux_text_nonempty (items : List EvidenceItemRaw) :
    ∀ seen it, it ∈ poolAux seen items → trimStr (quoteTextOf it) ≠ "" := by
  induction items with
  | nil => intro seen it h; cases h
  | cons x rest ih =>
    intro seen it h
    rw [poolAux] at h
    by_cases htext : trimStr (quoteTextOf x) = ""
    · rw [if_pos htext] at h; exact ih seen it h
    · rw [if_neg htext] at h
      by_cases hseen : keyMem (dedupKey x) seen
      · rw [if_pos hseen] at h; exact ih seen it h
      · rw [if_neg hseen] at h
        rcases List.mem_cons.mp h with h | h
        · subst h; exact htext
        · exact ih (dedupKey x :: seen) it h

/-- C3: in the evidence pool, for every dedup key (annotationId when
present, else document id + start position + first 80 characters of
text) at most one item survives; the survivor is exactly the first item
with that key, in query-then-semantic processing order, whose quotable
text is non-empty after trimming; and every retained item has non-empty
quotable text. -/
theorem evidence_dedup_invariant (items : List EvidenceItemRaw) (key : DedupKey) :
    (buildPool items).filter (fun it => decide (dedupKey it = key)) =
      ((items.filter (fun it =>
        decide (trimStr (quoteTextOf it) ≠ "" ∧ dedupKey it = key))).head?).toList ∧
    ((buildPool items).filter (fun it => decide (dedupKey it = key))).length ≤ 1 ∧
    (∀ it ∈ buildPool items, trimStr (quoteTextOf it) ≠ "") := by
  have h1 := poolAux_filter_key items [] key
  rw [if_neg (List.not_mem_nil key)] at h1
  rw [show buildPool items = poolAux [] items from rfl]
  refine ⟨h1, ?_, fun it h => poolAux_text_nonempty items [] it h⟩
  rw [h1]
  cases (items.filter (fun it =>
    decide (trimStr (quoteTextOf it) ≠ "" ∧ dedupKey it = key))).head? <;> simp

/-- C3 witness: two items share annotation id "a1" (second dropped), a
third has only whitespace text (filtered out); the survivor for the key
is the first-seen item. -/
theorem evidence_dedup_invariant_witness :
    (buildPool
        [⟨some "a1", "d", 0, "alpha", ""⟩,
         ⟨some "a1", "d", 3, "beta", ""⟩,
         ⟨none, "d", 5, "  ", ""⟩]).filter
      (fun it => decide (dedupKey it = .byAnnotationId "a1")) =
      (([⟨some "a1", "d", 0, "alpha", ""⟩,
         ⟨some "a1", "d", 3, "beta", ""⟩,
         (⟨none, "d", 5, "  ", ""⟩ : EvidenceItemRaw)].filter (fun it =>
        decide (trimStr (quoteTextOf it) ≠ "" ∧
          dedupKey it = .byAnnotationId "a1"))).head?).toList ∧
    buildPool
        [⟨some "a1", "d", 0, "alpha", ""⟩,
         ⟨some "a1", "d", 3, "beta", ""⟩,
         ⟨none, "d", 5, "  ", ""⟩] =
      [⟨some "a1", "d", 0, "alpha", ""⟩] :=
  ⟨(evidence_dedup_invariant
      [⟨some "a1", "d", 0, "alpha", ""⟩,
       ⟨some "a1", "d", 3, "beta", ""⟩,
       ⟨none, "d", 5, "  ", ""⟩] (.byAnnotationId "a1")).1,
   by decide⟩

/-! ## Re-rank scoring (spec §4.1) -/

/-- Modelled from the spec: "`similarity` is the raw backend similarity
normalized into [0,1] (divide by 100 if it exceeds 1.0)" (§4.1); the
retrieval engine code is not in `src/`. -/
def normalizeSimilarity (raw : ℚ) : ℚ := if 1 < raw then raw / 100 else raw

/-- Modelled from the spec: "category_bonus(evidence:0.12, key_quote:0.10,
argument:0.08, methodology:0.04, other-nonempty:0.02, none:0.0)" (§4.1). -/
def categoryBonus (category : Option String) : ℚ :=
  match category with
  | none => 0
  | some c =>
    if c = "evidence" then 12/100
    else if c = "key_quote" then 10/100
    else if c = "argument" then 8/100
    else if c = "methodology" then 4/100
    else if c ≠ "" then 2/100
    else 0

/-- Modelled from the spec: the inputs the re-rank formula reads from a
surviving evidence item (§4.1). -/
structure ScoreInputs where
  rawSimilarity : ℚ
  relevance : ℚ
  hasCitation : Bool
  hasNote : Bool
  category : Option String
  hasOcrArtifact : Bool
deriving DecidableEq, Repr

/-- Modelled from the spec: `reRankScore = 0.60·similarity +
0.28·relevance + citation_bonus(0.08) + note_bonus(0.03) +
category_bonus − artifact_penalty(0.08)`, rounded to 4 decimal places
(§4.1). -/
def reRankScore (s : ScoreInputs) : ℚ :=
  round4 (60/100 * normalizeSimilarity s.rawSimilarity
    + 28/100 * s.relevance
    + (if s.hasCitation then 8/100 else 0)
    + (if s.hasNote then 3/100 else 0)
    + categoryBonus s.category
    - (if s.hasOcrArtifact then 8/100 else 0))

/-- C4: the re-rank score equals the weighted formula with the
similarity normalization spelled out, and it is a deterministic function
of its five weighted inputs: two items with identical similarity,
relevance, bonuses and penalty receive equal scores. -/
theorem rerank_score_spec (s : ScoreInputs) :
    reRankScore s = round4 (60/100 *
        (if 1 < s.rawSimilarity then s.rawSimilarity / 100 else s.rawSimilarity)
      + 28/100 * s.relevance
      + (if s.hasCitation then 8/100 else 0)
      + (if s.hasNote then 3/100 else 0)
      + categoryBonus s.category
      - (if s.hasOcrArtifact then 8/100 else 0)) ∧
    (∀ t : ScoreInputs,
      s.rawSimilarity = t.rawSimilarity →
      s.relevance = t.relevance →
      s.hasCitation = t.hasCitation →
      s.hasNote = t.hasNote →
      categoryBonus s.category = categoryBonus t.category →
      s.hasOcrArtifact = t.hasOcrArtifact →
      reRankScore s = reRankScore t) := by
  constructor
  · rfl
  · intro t h1 h2 h3 h4 h5 h6
    unfold reRankScore normalizeSimilarity
    rw [h1, h2, h3, h4, h5, h6]

/-- C4 witness: raw similarity 85 is normalized to 0.85; score of a cited
evidence-category item with an OCR artifact evaluates to 0.77; two items
whose categories differ but carry the same bonus get equal scores. -/
theorem rerank_score_spec_witness :
    reRankScore ⟨85, 1/2, true, false, some "evidence", true⟩ = 77/100 ∧
    reRankScore ⟨85, 1/2, true, false, some "banana", true⟩
      = reRankScore ⟨85, 1/2, true, false, some "misc", true⟩ :=
  ⟨by rw [(rerank_score_spec ⟨85, 1/2, true, false, some "evidence", true⟩).1]
      norm_num [categoryBonus, round4, round_eq],
   (rerank_score_spec ⟨85, 1/2, true, false, some "banana", true⟩).2
      ⟨85, 1/2, true, false, some "misc", true⟩ rfl rfl rfl rfl rfl rfl⟩

/-! ## Retrieval error handling (spec §4.1, §7) -/

/-- Modelled from the spec: the primary lexical search over the query
list; "a failure from the primary lexical search for any query is NOT
caught and aborts the run" (§4.1) — a backend error on any query
propagates.  The retrieval engine code is not in `src/`. -/
def searchAllQueries {α : Type} (search : String → Except String (List α)) :
    List String → Except String (List α)
  | [] => .ok []
  | q :: rest =>
    match search q with
    | .error e => .error e
    | .ok items =>
      match searchAllQueries search rest with
      | .error e => .error e
      | .ok more => .ok (items ++ more)

/-- Modelled from the spec: "if a per-document semantic fetch fails, that
document is skipped without aborting the overall run" (§4.1, §7c) — the
per-document failure is recovered locally and the document's contribution
omitted. -/
def semanticExpand {δ α : Type} (fetch : δ → Except String (List α)) :
    List δ → List α
  | [] => []
  | d :: rest =>
    match fetch d with
    | .error _ => semanticExpand fetch rest
    | .ok snips => snips ++ semanticExpand fetch rest

/-- Modelled from the spec: a retrieval run issues all lexical queries
(any failure aborts) and then merges the semantic expansion (§4.1). -/
def retrieveRun {δ α : Type} (search : String → Except String (List α))
    (fetch : δ → Except String (List α)) (queries : List String)
    (docs : List δ) : Except String (List α) :=
  match searchAllQueries search queries with
  | .error e => .error e
  | .ok lexical => .ok (lexical ++ semanticExpand fetch docs)

theorem semanticExpand_eq_flatMap {δ α : Type}
    (fetch : δ → Except String (List α)) (docs : List δ) :
    semanticExpand fetch docs = docs.flatMap (fun d =>
      match fetch d with
      | .ok snips => snips
      | .error _ => []) := by
  induction docs with
  | nil => rfl
  | cons d rest ih =>
    rw [semanticExpand, List.flatMap_cons]
    cases fetch d with
    | error e => rw [ih]; rfl
    | ok snips => rw [ih]

theorem searchAllQueries_error {α : Type}
    (search : String → Except String (List α)) (queries : List String) :
    (∃ q ∈ queries, ∃ e, search q = .error e) →
    ∃ e', searchAllQueries search queries = .error e' := by
  induction queries with
  | nil => rintro ⟨q, hq, _⟩; cases hq
  | cons q' rest ih =>
    rintro ⟨q, hq, e, he⟩
    rw [searchAllQueries]
    rcases List.mem_cons.mp hq with h | h
    · subst h
      rw [he]
      exact ⟨e, rfl⟩
    · cases hs : search q' with
      | error e'' => exact ⟨e'', rfl⟩
      | ok items =>
        rcases ih ⟨q, h, e, he⟩ with ⟨e', he'⟩
        rw [he']
        exact ⟨e', rfl⟩

/-- C7: a failing per-document semantic fetch contributes nothing and
never aborts the run (when the lexical phase succeeds the run returns ok
whatever the fetches do), whereas a backend failure on any lexical query
makes the whole run abort with an error. -/
theorem retrieval_error_handling {δ α : Type}
    (search : String → Except String (List α))
    (fetch : δ → Except String (List α))
    (queries : List String) (docs : List δ) :
    (semanticExpand fetch docs = docs.flatMap (fun d =>
      match fetch d with
      | .ok snips => snips
      | .error _ => [])) ∧
    (∀ lexical, searchAllQueries search queries = .ok lexical →
      retrieveRun search fetch queries docs
        = .ok (lexical ++ semanticExpand fetch docs)) ∧
    ((∃ q ∈ queries, ∃ e, search q = .error e) →
      ∃ e', retrieveRun search fetch queries docs = .error e') := by
  refine ⟨semanticExpand_eq_flatMap fetch docs, ?_, ?_⟩
  · intro lexical h
    unfold retrieveRun
    rw [h]
  · intro hex
    rcases searchAllQueries_error search queries hex with ⟨e', he'⟩
    unfold retrieveRun
    rw [he']
    exact ⟨e', rfl⟩

/-- C7 witness: with a fetch that fails on document "bad", the run still
returns ok and "bad" contributes nothing; with a search that fails on
query "fail", the run aborts with an error. -/
theorem retrieval_error_handling_witness :
    retrieveRun (α := String)
        (fun q => if q = "fail" then .error "boom" else .ok [q])
        (fun d : String => if d = "bad" then .error "down" else .ok [d])
        ["alpha"] ["good", "bad"] = .ok ["alpha", "good"] ∧
    (∃ e', retrieveRun (α := String)
        (fun q => if q = "fail" then .error "boom" else .ok [q])
        (fun d : String => if d = "bad" then .error "down" else .ok [d])
        ["alpha", "fail"] ["good", "bad"] = .error e') :=
  ⟨by have := (retrieval_error_handling (α := String)
        (fun q => if q = "fail" then .error "boom" else .ok [q])
        (fun d : String => if d = "bad" then .error "down" else .ok [d])
        ["alpha"] ["good", "bad"]).2.1 ["alpha"] (by rfl)
      rw [this]
      rfl,
   (retrieval_error_handling (α := String)
      (fun q => if q = "fail" then .error "boom" else .ok [q])
      (fun d : String => if d = "bad" then .error "down" else .ok [d])
      ["alpha", "fail"] ["good", "bad"]).2.2
      ⟨"fail", by simp, "boom", by rfl⟩⟩

/-! ## Quote verification engine (spec §4.2) -/

/-- Modelled from the spec: a draft quote, "optionally pre-tagged with
the annotation it claims to originate from" (§3); the verification
engine code is not in `src/`. -/
structure DraftQuote where
  text : String
  sourceAnnotationId : Option String
deriving DecidableEq, Repr

/-- Modelled from the spec: a source quote — annotation text keyed by
annotation id (§4.2). -/
structure SourceQuote where
  annotationId : String
  text : String
deriving DecidableEq, Repr

/-- Modelled from the spec: the five terminal states of §4.2. -/
inductive VerifyStatus where
  | EXACT_MATCH
  | TRUNCATED_OK
  | EXPANDED_ERROR
  | SOURCE_MISMATCH
  | MISMATCH
deriving DecidableEq, Repr

/-- Modelled from the spec: split a character list on the truncation
markers `[...]`, `[…]`, `...`, `…` (§4.2 steps 3-4), bracketed forms
first so they are not consumed as the bare ones. -/
def splitSegsAux : List Char → List Char → List (List Char)
  | [], cur => [cur.reverse]
  | '[' :: '.' :: '.' :: '.' :: ']' :: rest, cur => cur.reverse :: splitSegsAux rest []
  | '[' :: '…' :: ']' :: rest, cur => cur.reverse :: splitSegsAux rest []
  | '.' :: '.' :: '.' :: rest, cur => cur.reverse :: splitSegsAux rest []
  | '…' :: rest, cur => cur.reverse :: splitSegsAux rest []
  | c :: rest, cur => splitSegsAux rest (c :: cur)

/-- Modelled from the spec: delete every truncation marker (§4.2 step 3,
"stripping truncation markers"). -/
def stripMarkersL : List Char → List Char
  | [] => []
  | '[' :: '.' :: '.' :: '.' :: ']' :: rest => stripMarkersL rest
  | '[' :: '…' :: ']' :: rest => stripMarkersL rest
  | '.' :: '.' :: '.' :: rest => stripMarkersL rest
  | '…' :: rest => stripMarkersL rest
  | c :: rest => c :: stripMarkersL rest

/-- Smallest index `j ≥ i` at which `needle` occurs in the remaining
haystack, `i` being the index of the haystack's head in the original
list. -/
def findAux (needle : List Char) : List Char → Nat → Option Nat
  | [], i => if needle.isEmpty then some i else none
  | c :: t, i => if needle.isPrefixOf (c :: t) then some i else findAux needle t (i + 1)

/-- First occurrence of `needle` in `hay` at or after position `start`. -/
def findFrom (hay needle : List Char) (start : Nat) : Option Nat :=
  findAux needle (hay.drop start) start

/-- Substring test via `findFrom`. -/
def isSubstrL (needle hay : List Char) : Bool := (findFrom hay needle 0).isSome

/-- Modelled from the spec: "split the draft text on truncation markers
into non-empty, whitespace-collapsed segments" (§4.2 step 4). -/
def segmentsOf (draft : List Char) : List (List Char) :=
  ((splitSegsAux draft []).map collapseWsL).filter (fun s => !s.isEmpty)

/-- Modelled from the spec: the monotonic-cursor scan of §4.2 step 4 —
each segment must be found at a position at or beyond the cursor, and the
cursor advances past the end of each match. -/
def orderedSegsCheck (src : List Char) : List (List Char) → Nat → Bool
  | [], _ => true
  | seg :: rest, cursor =>
    match findFrom src seg cursor with
    | none => false
    | some i => orderedSegsCheck src rest (i + seg.length)

/-- Modelled from the spec: the per-source checks of §4.2 in precedence
order — exact equality (step 2), normalization-form truncation (step 3),
ordered-segments truncation (step 4), expansion (step 5); `none` when the
source matches no check. -/
def matchSource (draft src : List Char) : Option VerifyStatus :=
  if draft = src then some .EXACT_MATCH
  else if isSubstrL (collapseWsL (stripMarkersL draft)) src then some .TRUNCATED_OK
  else if orderedSegsCheck src (segmentsOf draft) 0 then some .TRUNCATED_OK
  else if isSubstrL src draft then some .EXPANDED_ERROR
  else none

/-- Modelled from the spec: the hard filter of §4.2 step 1 — when the
draft declares a `sourceAnnotationId`, only sources with that id are
considered. -/
def admissibleSources (sources : List SourceQuote) (dq : DraftQuote) : List SourceQuote :=
  match dq.sourceAnnotationId with
  | some aid => sources.filter (fun s => decide (s.annotationId = aid))
  | none => sources

/-- Modelled from the spec: "first matching source quote wins, scanning
source quotes in the given order" (§4.2). -/
def firstMatch (draft : List Char) : List SourceQuote → Option VerifyStatus
  | [] => none
  | s :: rest =>
    match matchSource draft s.text.data with
    | some st => some st
    | none => firstMatch draft rest

/-- Modelled from the spec: classification of one draft quote (§4.2): the
first matching admissible source decides the state; otherwise
`SOURCE_MISMATCH` when an annotation id was declared (step 6), else
`MISMATCH` (step 7). -/
def verifyOne (sources : List SourceQuote) (dq : DraftQuote) : VerifyStatus :=
  match firstMatch dq.text.data (admissibleSources sources dq) with
  | some st => st
  | none => if dq.sourceAnnotationId.isSome then .SOURCE_MISMATCH else .MISMATCH

/-- Modelled from the spec: classify each draft quote of the ordered
sequence (§4.2). -/
def verifyQuotes (sources : List SourceQuote) (drafts : List DraftQuote) :
    List VerifyStatus :=
  drafts.map (verifyOne sources)

/-! ### Verification lemmas -/

theorem findAux_sound (needle : List Char) :
    ∀ (hay : List Char) (i j : Nat), findAux needle hay i = some j →
      i ≤ j ∧ needle.isPrefixOf (hay.drop (j - i)) = true := by
  intro hay
  induction hay with
  | nil =>
    intro i j h
    rw [findAux] at h
    by_cases he : needle.isEmpty
    · rw [if_pos he] at h
      injection h with h'
      subst h'
      refine ⟨le_refl _, ?_⟩
      have : needle = [] := by simpa using he
      subst this
      simp
    · rw [if_neg he] at h
      cases h
  | cons c t ih =>
    intro i j h
    rw [findAux] at h
    by_cases hp : needle.isPrefixOf (c :: t) = true
    · rw [if_pos hp] at h
      injection h with h'
      subst h'
      refine ⟨le_refl _, ?_⟩
      simpa using hp
    · rw [if_neg hp] at h
      obtain ⟨h1, h2⟩ := ih (i + 1) j h
      refine ⟨by omega, ?_⟩
      have hji : j - i = (j - (i + 1)) + 1 := by omega
      rw [hji, List.drop_succ_cons]
      exact h2

theorem findFrom_sound (hay needle : List Char) (start j : Nat)
    (h : findFrom hay needle start = some j) :
    start ≤ j ∧ needle.isPrefixOf (hay.drop j) = true := by
  obtain ⟨h1, h2⟩ := findAux_sound needle (hay.drop start) start j h
  refine ⟨h1, ?_⟩
  rw [List.drop_drop] at h2
  have he : start + (j - start) = j := by omega
  rw [he] at h2
  exact h2

/-- The monotonic-cursor occurrence property of §4.2 step 4: one
position per segment, each at or beyond the cursor left by the previous
match, the cursor advancing past the end of each match. -/
def cursorChain (src : List Char) : List (List Char) → Nat → List Nat → Prop
  | [], _, [] => True
  | seg :: rest, cursor, p :: ps =>
    cursor ≤ p ∧ seg.isPrefixOf (src.drop p) = true ∧
      cursorChain src rest (p + seg.length) ps
  | _, _, _ => False

theorem orderedSegsCheck_sound (src : List Char) :
    ∀ (segs : List (List Char)) (cursor : Nat),
      orderedSegsCheck src segs cursor = true →
      ∃ ps : List Nat, cursorChain src segs cursor ps := by
  intro segs
  induction segs with
  | nil =>
    intro cursor _
    exact ⟨[], trivial⟩
  | cons seg rest ih =>
    intro cursor h
    rw [orderedSegsCheck] at h
    cases hf : findFrom src seg cursor with
    | none => rw [hf] at h; cases h
    | some i =>
      rw [hf] at h
      obtain ⟨h1, h2⟩ := findFrom_sound src seg cursor i hf
      obtain ⟨ps, hps⟩ := ih (i + seg.length) h
      exact ⟨i :: ps, h1, h2, hps⟩

theorem matchSource_range (d s : List Char) (st : VerifyStatus)
    (h : matchSource d s = some st) :
    st = .EXACT_MATCH ∨ st = .TRUNCATED_OK ∨ st = .EXPANDED_ERROR := by
  unfold matchSource at h
  split_ifs at h <;>
    first
    | (injection h with h'; subst h'; simp)
    | cases h

theorem firstMatch_none (d : List Char) :
    ∀ (l : List SourceQuote), firstMatch d l = none →
      ∀ s ∈ l, matchSource d s.text.data = none := by
  intro l
  induction l with
  | nil => intro _ s hs; cases hs
  | cons s' rest ih =>
    intro h s hs
    rw [firstMatch] at h
    cases hm : matchSource d s'.text.data with
    | some st => rw [hm] at h; cases h
    | none =>
      rw [hm] at h
      rcases List.mem_cons.mp hs with he | he
      · subst he; exact hm
      · exact ih h s he

theorem firstMatch_mem (d : List Char) :
    ∀ (l : List SourceQuote) (st : VerifyStatus), firstMatch d l = some st →
      ∃ s ∈ l, matchSource d s.text.data = some st := by
  intro l
  induction l with
  | nil => intro st h; cases h
  | cons s' rest ih =>
    intro st h
    rw [firstMatch] at h
    cases hm : matchSource d s'.text.data with
    | some st' =>
      rw [hm] at h
      injection h with h'
      subst h'
      exact ⟨s', List.mem_cons_self _ _, hm⟩
    | none =>
      rw [hm] at h
      obtain ⟨s, hs, hms⟩ := ih st h
      exact ⟨s, List.mem_cons_of_mem _ hs, hms⟩

/-- C1 counterexample: the draft text equals the second source's text and
no annotation id restricts the scan, yet the result is `EXPANDED_ERROR`,
not `EXACT_MATCH`: the earlier source "war" already matches the expansion
check, and the first matching source quote wins. -/
theorem quote_exact_precedence_counterexample :
    (⟨"the war began", none⟩ : DraftQuote).text
        = (⟨"a2", "the war began"⟩ : SourceQuote).text ∧
    (⟨"a2", "the war began"⟩ : SourceQuote) ∈
      admissibleSources [⟨"a1", "war"⟩, ⟨"a2", "the war began"⟩]
        ⟨"the war began", none⟩ ∧
    verifyOne [⟨"a1", "war"⟩, ⟨"a2", "the war began"⟩] ⟨"the war began", none⟩
      = .EXPANDED_ERROR := by decide

/-- C1 (amended): `verify` assigns exactly one of the five states to
every draft quote; a draft quote whose text equals the text of some
admissible source quote (its `sourceAnnotationId`, if set, matching that
source) never falls through to `SOURCE_MISMATCH` or `MISMATCH` — the
first matching source in scan order decides among `EXACT_MATCH`,
`TRUNCATED_OK`, `EXPANDED_ERROR` — and when the equal-text source is the
first admissible source the result is `EXACT_MATCH`. -/
theorem quote_verification_totality (sources : List SourceQuote) (dq : DraftQuote) :
    (verifyOne sources dq = .EXACT_MATCH ∨ verifyOne sources dq = .TRUNCATED_OK ∨
      verifyOne sources dq = .EXPANDED_ERROR ∨
      verifyOne sources dq = .SOURCE_MISMATCH ∨
      verifyOne sources dq = .MISMATCH) ∧
    ((∃ s ∈ admissibleSources sources dq, s.text = dq.text) →
      verifyOne sources dq ≠ .SOURCE_MISMATCH ∧
      verifyOne sources dq ≠ .MISMATCH) ∧
    (∀ s rest, admissibleSources sources dq = s :: rest → s.text = dq.text →
      verifyOne sources dq = .EXACT_MATCH) := by
  refine ⟨?_, ?_, ?_⟩
  · cases h : verifyOne sources dq <;> simp
  · rintro ⟨s, hs, he⟩
    have hms : matchSource dq.text.data s.text.data = some .EXACT_MATCH := by
      unfold matchSource
      rw [if_pos (by rw [he])]
    cases hf : firstMatch dq.text.data (admissibleSources sources dq) with
    | none =>
      have := firstMatch_none _ _ hf s hs
      rw [hms] at this
      cases this
    | some st =>
      have hv : verifyOne sources dq = st := by
        unfold verifyOne
        rw [hf]
      obtain ⟨s', _, hm'⟩ := firstMatch_mem _ _ _ hf
      have hr := matchSource_range _ _ _ hm'
      rw [hv]
      rcases hr with h | h | h <;> subst h <;> exact ⟨by simp, by simp⟩
  · intro s rest hadm he
    have hms : matchSource dq.text.data s.text.data = some .EXACT_MATCH := by
      unfold matchSource
      rw [if_pos (by rw [he])]
    unfold verifyOne
    rw [hadm, firstMatch, hms]

/-- C1 witness: when the equal-text source is first, the result is
`EXACT_MATCH`; with the shadowing source in front, the result still never
falls to `SOURCE_MISMATCH`/`MISMATCH`. -/
theorem quote_verification_totality_witness :
    verifyOne [⟨"a2", "the war began"⟩] ⟨"the war began", none⟩ = .EXACT_MATCH ∧
    (verifyOne [⟨"a1", "war"⟩, ⟨"a2", "the war began"⟩] ⟨"the war began", none⟩
        ≠ .SOURCE_MISMATCH ∧
      verifyOne [⟨"a1", "war"⟩, ⟨"a2", "the war began"⟩] ⟨"the war began", none⟩
        ≠ .MISMATCH) :=
  ⟨(quote_verification_totality [⟨"a2", "the war began"⟩]
      ⟨"the war began", none⟩).2.2 ⟨"a2", "the war began"⟩ [] rfl rfl,
   (quote_verification_totality [⟨"a1", "war"⟩, ⟨"a2", "the war began"⟩]
      ⟨"the war began", none⟩).2.1 ⟨⟨"a2", "the war began"⟩, by decide, rfl⟩⟩

/-- C2 counterexample: the spec's truncation example as literally stated
fails: against the source "The war began in 1914 and ended in defeat for
the empire." the draft "The war began [...] and ended in defeat." is
classified `MISMATCH`, because its second segment "and ended in defeat."
(with its trailing period) is a segment of the draft but occurs nowhere
in the source text. -/
theorem quote_truncation_example_counterexample :
    verifyOne [⟨"a1", "The war began in 1914 and ended in defeat for the empire."⟩]
        ⟨"The war began [...] and ended in defeat.", none⟩ = .MISMATCH ∧
    "and ended in defeat.".data ∈
      segmentsOf "The war began [...] and ended in defeat.".data ∧
    isSubstrL "and ended in defeat.".data
      "The war began in 1914 and ended in defeat for the empire.".data = false := by
  decide

/-- C2 (amended): the ordered-segments check succeeds only via a
monotonic cursor — whenever it returns true there is one match position
per whitespace-collapsed segment, each at or beyond the cursor left by
the previous match, the cursor advancing past each match's end; a draft
whose segments occur in the source only in a different order is
rejected (ending in `MISMATCH`); and the spec's truncation example
yields `TRUNCATED_OK` once the draft's trailing period, which does not
occur at that point of the source, is dropped. -/
theorem quote_truncation_ordered_spec :
    (∀ (src : List Char) (segs : List (List Char)) (cursor : Nat),
      orderedSegsCheck src segs cursor = true →
      ∃ ps : List Nat, cursorChain src segs cursor ps) ∧
    verifyOne [⟨"a1", "The war began in 1914 and ended in defeat for the empire."⟩]
        ⟨"The war began [...] and ended in defeat", none⟩ = .TRUNCATED_OK ∧
    (verifyOne [⟨"a1", "The war began in 1914 and ended in defeat for the empire."⟩]
        ⟨"and ended [...] The war", none⟩ = .MISMATCH ∧
      isSubstrL "and ended".data
        "The war began in 1914 and ended in defeat for the empire.".data = true ∧
      isSubstrL "The war".data
        "The war began in 1914 and ended in defeat for the empire.".data = true) :=
  ⟨fun src segs cursor h => orderedSegsCheck_sound src segs cursor h,
   by decide, by decide⟩

/-- C2 witness: a concrete successful ordered-segments run and the
cursor-chain positions it guarantees. -/
theorem quote_truncation_ordered_spec_witness :
    orderedSegsCheck "abcbc".data [['b'], ['c']] 0 = true ∧
    (∃ ps : List Nat, cursorChain "abcbc".data [['b'], ['c']] 0 ps) :=
  ⟨by decide,
   quote_truncation_ordered_spec.1 "abcbc".data [['b'], ['c']] 0 (by decide)⟩
